import Mathlib

/-
Verification development for the n8n Text Classifier node
(packages/@n8n/nodes-langchain/nodes/chains/TextClassifier/TextClassifier.node.ts).

The `execute` method of the node is embedded shallowly:
  * the zod answer-schema construction (`schemaEntries`, `Object.fromEntries`,
    JavaScript object key ordering) is modelled by `schemaEntries`,
    `insertOrderFields`, `objectFields` and `buildSchema`;
  * the per-item loop (lines 370-414 of the source) is modelled by
    `stepItem` / `execItems` / `executePerItem`, with the language-model chain
    treated as an oracle supplied per item (`ItemEnv.invokeResult`);
  * the aggregate branch (lines 203-295) is modelled by
    `resolveAggCategories` / `executeAggregate`.
-/

namespace TextClassifier

/-- A configured category: `{ category: string; description: string }`. -/
structure Category where
  category : String
  description : String
deriving DecidableEq, Repr, Inhabited

/-- The `fallback` option of the node: either `discard` (the default) or `other`. -/
inductive FallbackPolicy where
  | discard
  | other
deriving DecidableEq, Repr

/-- Errors that can escape `execute`: `NodeOperationError`s thrown by the node
itself, and errors rethrown unchanged from the chain invocation
(`throw error` at line 411 of the source). -/
inductive NodeError where
  | operationError (msg : String)
  | chainError (msg : String)
deriving DecidableEq, Repr

/-- An entry pushed onto an output branch in per-item mode: either the original
input item (identified by its index, as recorded in `pairedItem`), or an error
record `{ json: { error: msg }, pairedItem: { item: itemIdx } }`. -/
inductive OutItem where
  | routed (itemIdx : Nat)
  | errorRecord (msg : String) (itemIdx : Nat)
deriving DecidableEq, Repr

/-- The item index an output entry refers to (its `pairedItem`). -/
def outIdx : OutItem → Nat
  | .routed j => j
  | .errorRecord _ j => j

/-- Per-item environment supplied by the host and the model collaborator:
the resolved `inputText` parameter for the item (`none` models
`undefined`/`null`), and the outcome of `chain.invoke` for the item
(`Except.error msg` models a thrown error with that message). -/
structure ItemEnv where
  inputText : Option String
  invokeResult : Except String (List (String × Bool))

/-- Configuration fixed for one execution in per-item mode: the configured
categories, the options `multiClass`, `fallback`, `enableAutoFixing`, and the
host flag `continueOnFail`.  `multiClass` and `enableAutoFixing` only influence
the prompt text and the parser wiring in the source; they do not occur in the
routing logic. -/
structure PerItemConfig where
  categories : List Category
  multiClass : Bool
  fallback : FallbackPolicy
  enableAutoFixing : Bool
  continueOnFail : Bool

/-- State threaded through the per-item loop: the accumulated `returnData`
branches and the number of `chain.invoke` calls made so far (each such call is
exactly one language-model invocation when auto-fixing is disabled). -/
structure LoopState where
  returnData : List (List OutItem)
  modelCalls : Nat
deriving DecidableEq, Repr

/-- An input item as seen by the aggregate branch: `item.json.category` and
`item.json.description`, with `none` modelling a value that is not a string. -/
structure AggItem where
  category : Option String
  description : Option String
deriving DecidableEq, Repr

/-- The single output item of the aggregate branch: either
`{ json: { ...output, input } }` on success or `{ json: { error } }` on a
caught chain error. -/
inductive AggOut where
  | result (output : List (String × Bool)) (input : String)
  | errorRecord (msg : String)
deriving DecidableEq, Repr

/-! ### Schema construction (lines 242-255 / 322-335 of the source) -/

/-- The description attached to a category field of the answer schema. -/
def categoryFieldDescription (cat : Category) : String :=
  "Should be true if the input has category \"" ++ cat.category ++
    "\" (description: " ++ cat.description ++ ")"

/-- The description attached to the synthetic `fallback` field. -/
def fallbackFieldDescription : String :=
  "Should be true if none of the other categories apply"

/-- The `schemaEntries` array of the source: one key/description pair per
category, in category order, followed by the fallback pair exactly
when the fallback policy is `other`.  A field is modelled by its key and its
description string. -/
def schemaEntries (categories : List Category) (fallback : FallbackPolicy) :
    List (String × String) :=
  (categories.map fun cat => (cat.category, categoryFieldDescription cat)) ++
    (if fallback = FallbackPolicy.other then
      [("fallback", fallbackFieldDescription)]
    else [])

/-- One step of JavaScript property creation: assigning to an existing key
updates its value in place (the key keeps its original position), assigning a
fresh key appends it. -/
def insertEntry (acc : List (String × String)) (e : String × String) :
    List (String × String) :=
  if acc.any (fun p => p.1 = e.1) then
    acc.map fun p => if p.1 = e.1 then (p.1, e.2) else p
  else acc ++ [e]

/-- Fields of `Object.fromEntries(entries)` in insertion order: duplicate
keys collapse, the last value wins, the first occurrence fixes the position. -/
def insertOrderFields (entries : List (String × String)) : List (String × String) :=
  entries.foldl insertEntry []

/-- Value of a digit string read in base 10. -/
def decimalValue (cs : List Char) : Nat :=
  cs.foldl (fun n c => n * 10 + (c.toNat - 48)) 0

/-- Whether a string is a JavaScript array-index key: the canonical decimal
representation (digits only, no leading zero unless the string is `"0"`) of an
integer in `[0, 2^32 - 1)`. -/
def isArrayIndexKey (s : String) : Bool :=
  match s.toList with
  | [] => false
  | [c] => c.isDigit
  | c :: rest =>
      c.isDigit && c != '0' && rest.all Char.isDigit &&
        decimalValue (c :: rest) < 4294967295

/-- Numeric value of an array-index key (only applied to array-index keys). -/
def keyNum (p : String × String) : Nat :=
  decimalValue p.1.toList

/-- Insertion into a list sorted by `keyNum`. -/
def insertByNum (e : String × String) : List (String × String) → List (String × String)
  | [] => [e]
  | f :: rest => if keyNum e ≤ keyNum f then e :: f :: rest else f :: insertByNum e rest

/-- Sorting by `keyNum` (ascending). -/
def sortByNum : List (String × String) → List (String × String)
  | [] => []
  | e :: rest => insertByNum e (sortByNum rest)

/-- The ordered own-property list of `Object.fromEntries(entries)`:
array-index keys first in ascending numeric order, then the remaining keys in
insertion order. -/
def objectFields (entries : List (String × String)) : List (String × String) :=
  sortByNum ((insertOrderFields entries).filter fun p => isArrayIndexKey p.1) ++
    (insertOrderFields entries).filter fun p => !isArrayIndexKey p.1

/-- The fields of the built answer schema
`z.object(Object.fromEntries(schemaEntries))`, in object key order. -/
def buildSchema (categories : List Category) (fallback : FallbackPolicy) :
    List (String × String) :=
  objectFields (schemaEntries categories fallback)

/-! ### Per-item mode (lines 296-415 of the source) -/

/-- Truthiness of `output[key]` for a parsed answer object: the value of the
first matching field, `false` when the field is absent (`undefined`). -/
def lookupBool (output : List (String × Bool)) (key : String) : Bool :=
  match output.find? (fun p => p.1 == key) with
  | some p => p.2
  | none => false

/-- Append `x` to branch `idx` (the push of the source), leaving the other
branches unchanged (identity when `idx` is out of range; the source only ever
pushes at in-range indices). -/
def pushAt : List (List OutItem) → Nat → OutItem → List (List OutItem)
  | [], _, _ => []
  | b :: rest, 0, x => (b ++ [x]) :: rest
  | b :: rest, k + 1, x => b :: pushAt rest k x

/-- The forEach over categories of lines 398-400: push the item onto branch
`idx` when the answer field of that category is truthy, `idx` from `idx0`. -/
def routeCats (cats : List Category) (output : List (String × Bool)) (itemIdx : Nat)
    (idx0 : Nat) (rd : List (List OutItem)) : List (List OutItem) :=
  match cats with
  | [] => rd
  | cat :: rest =>
      routeCats rest output itemIdx (idx0 + 1)
        (if lookupBool output cat.category then pushAt rd idx0 (.routed itemIdx) else rd)

/-- Routing of one successfully classified item (lines 398-401): push onto
every category branch whose answer field is truthy, then onto the trailing
branch when the policy is `other` and `output.fallback` is truthy. -/
def routeItem (cfg : PerItemConfig) (output : List (String × Bool)) (itemIdx : Nat)
    (rd : List (List OutItem)) : List (List OutItem) :=
  let rd1 := routeCats cfg.categories output itemIdx 0 rd
  if cfg.fallback = FallbackPolicy.other ∧ lookupBool output "fallback" = true then
    pushAt rd1 (rd1.length - 1) (.routed itemIdx)
  else rd1

/-- The message of the fatal missing-text error for item `itemIdx`. -/
def missingTextMsg (itemIdx : Nat) : String :=
  "Text to classify for item " ++ toString itemIdx ++ " is not defined"

/-- One iteration of the per-item loop (lines 370-413) for the item at index
`itemIdx` with environment `env`, acting on the loop state `st`. -/
def stepItem (cfg : PerItemConfig) (itemIdx : Nat) (env : ItemEnv) (st : LoopState) :
    Except NodeError LoopState :=
  match env.inputText with
  | none =>
      if cfg.continueOnFail then
        .ok ⟨pushAt st.returnData 0 (.errorRecord "Text to classify is not defined" itemIdx),
          st.modelCalls⟩
      else .error (.operationError (missingTextMsg itemIdx))
  | some _ =>
      match env.invokeResult with
      | .ok output => .ok ⟨routeItem cfg output itemIdx st.returnData, st.modelCalls + 1⟩
      | .error msg =>
          if cfg.continueOnFail then
            .ok ⟨pushAt st.returnData 0 (.errorRecord msg itemIdx), st.modelCalls + 1⟩
          else .error (.chainError msg)

/-- The per-item loop, starting at item index `i`. -/
def execItems (cfg : PerItemConfig) : Nat → List ItemEnv → LoopState → Except NodeError LoopState
  | _, [], st => .ok st
  | i, env :: rest, st =>
      match stepItem cfg i env st with
      | .ok st' => execItems cfg (i + 1) rest st'
      | .error e => .error e

/-- Number of output branches in per-item mode: `categories.length` plus one
exactly when the fallback policy is `other`. -/
def branchCount (cfg : PerItemConfig) : Nat :=
  cfg.categories.length + (if cfg.fallback = FallbackPolicy.other then 1 else 0)

/-- The per-item branch of `execute`: the empty-category check (lines 302-304),
then the loop over all items starting from empty branches. -/
def executePerItem (cfg : PerItemConfig) (items : List ItemEnv) : Except NodeError LoopState :=
  if cfg.categories.isEmpty then
    .error (.operationError "At least one category must be defined")
  else execItems cfg 0 items ⟨List.replicate (branchCount cfg) [], 0⟩

/-- Whether an item environment makes its loop iteration succeed: the text is
defined and the chain invocation returns a parsed answer. -/
def envOk (env : ItemEnv) : Bool :=
  env.inputText.isSome &&
    (match env.invokeResult with
     | .ok _ => true
     | .error _ => false)

/-! ### Aggregate mode (lines 203-295 of the source) -/

/-- The category-deriving map of lines 205-215: derive one category per
input item, throwing at the first item whose `category` or `description` is
not a string. -/
def resolveAggCategories : Nat → List AggItem → Except NodeError (List Category)
  | _, [] => .ok []
  | idx, it :: rest =>
      match it.category, it.description with
      | some c, some d =>
          match resolveAggCategories (idx + 1) rest with
          | .ok cs => .ok (⟨c, d⟩ :: cs)
          | .error e => .error e
      | _, _ =>
          .error (.operationError ("Input item " ++ toString idx ++
            " is missing a valid \x27category\x27 or \x27description\x27 field."))

/-- The aggregate branch of `execute` (lines 203-295): resolve categories from
the items, reject an empty set, reject a missing `inputText`, then invoke the
chain once, catching any invocation error and degrading it to a single error
item on the single branch. -/
def executeAggregate (items : List AggItem) (inputText : Option String)
    (invokeResult : Except String (List (String × Bool))) :
    Except NodeError (List (List AggOut)) :=
  match resolveAggCategories 0 items with
  | .error e => .error e
  | .ok categories =>
      if categories.isEmpty then
        .error (.operationError "At least one category must be defined")
      else
        match inputText with
        | none => .error (.operationError "Text to classify is not defined")
        | some input =>
            match invokeResult with
            | .ok output => .ok [[AggOut.result output input]]
            | .error msg => .ok [[AggOut.errorRecord msg]]

end TextClassifier

namespace TextClassifier

theorem map_fst_insertEntry (acc : List (String × String)) (e : String × String) :
    (insertEntry acc e).map Prod.fst =
      if e.1 ∈ acc.map Prod.fst then acc.map Prod.fst else acc.map Prod.fst ++ [e.1] := by
  unfold insertEntry
  by_cases h : e.1 ∈ acc.map Prod.fst
  · rw [if_pos h]
    have hany : acc.any (fun p => decide (p.1 = e.1)) = true := by
      simp only [List.any_eq_true, decide_eq_true_eq]
      obtain ⟨p, hp, hpe⟩ := List.mem_map.mp h
      exact ⟨p, hp, hpe⟩
    rw [if_pos ?_]
    · rw [List.map_map]
      apply List.map_congr_left
      intro p _
      by_cases hpe : p.1 = e.1 <;> simp [hpe]
    · exact hany
  · rw [if_neg h]
    rw [if_neg ?_]
    · simp
    · simp only [List.any_eq_true, decide_eq_true_eq]
      rintro ⟨p, hp, hpe⟩
      exact h (List.mem_map.mpr ⟨p, hp, hpe⟩)

theorem insertEntry_of_not_mem (acc : List (String × String)) (e : String × String)
    (h : e.1 ∉ acc.map Prod.fst) : insertEntry acc e = acc ++ [e] := by
  unfold insertEntry
  rw [if_neg ?_]
  simp only [List.any_eq_true, decide_eq_true_eq]
  rintro ⟨p, hp, hpe⟩
  exact h (List.mem_map.mpr ⟨p, hp, hpe⟩)

theorem length_insertEntry_of_mem (acc : List (String × String)) (e : String × String)
    (h : e.1 ∈ acc.map Prod.fst) : (insertEntry acc e).length = acc.length := by
  unfold insertEntry
  rw [if_pos ?_]
  · simp
  · simp only [List.any_eq_true, decide_eq_true_eq]
    obtain ⟨p, hp, hpe⟩ := List.mem_map.mp h
    exact ⟨p, hp, hpe⟩

theorem foldl_insertEntry_of_nodup (l : List (String × String)) :
    ∀ acc : List (String × String),
      ((acc.map Prod.fst ++ l.map Prod.fst).Nodup) →
      l.foldl insertEntry acc = acc ++ l := by
  induction l with
  | nil => intro acc _; simp
  | cons e rest ih =>
      intro acc h
      have hnotmem : e.1 ∉ acc.map Prod.fst := by
        simp only [List.map_cons, List.nodup_append] at h
        intro hmem
        exact (h.2.2 hmem) (List.mem_cons_self _ _)
      rw [List.foldl_cons, insertEntry_of_not_mem acc e hnotmem]
      rw [ih (acc ++ [e]) ?_]
      · simp
      · simp only [List.map_append, List.map_cons, List.map_nil] at h ⊢
        have : acc.map Prod.fst ++ [e.1] ++ rest.map Prod.fst
            = acc.map Prod.fst ++ ([e.1] ++ rest.map Prod.fst) := by
          simp [List.append_assoc]
        rw [this]
        simpa using h

theorem insertOrderFields_of_nodup (l : List (String × String))
    (h : (l.map Prod.fst).Nodup) : insertOrderFields l = l := by
  have := foldl_insertEntry_of_nodup l [] (by simpa using h)
  simpa [insertOrderFields] using this

end TextClassifier

namespace TextClassifier

theorem length_insertByNum (e : String × String) (l : List (String × String)) :
    (insertByNum e l).length = l.length + 1 := by
  induction l with
  | nil => rfl
  | cons f rest ih =>
      unfold insertByNum
      by_cases h : keyNum e ≤ keyNum f
      · simp [h]
      · simp [h, ih]

theorem length_sortByNum (l : List (String × String)) :
    (sortByNum l).length = l.length := by
  induction l with
  | nil => rfl
  | cons e rest ih => simp [sortByNum, length_insertByNum, ih]

theorem length_filter_add_length_filter_not {α : Type} (p : α → Bool) (l : List α) :
    (l.filter p).length + (l.filter fun a => !p a).length = l.length := by
  induction l with
  | nil => rfl
  | cons a rest ih =>
      by_cases h : p a = true
      · simp only [List.filter_cons, h, if_pos, Bool.not_true, if_neg, List.length_cons,
          Bool.false_eq_true, ite_false, ite_true]
        omega
      · simp only [Bool.not_eq_true] at h
        simp only [List.filter_cons, h, Bool.not_false, List.length_cons,
          Bool.false_eq_true, ite_false, ite_true]
        omega

theorem length_objectFields (entries : List (String × String)) :
    (objectFields entries).length = (insertOrderFields entries).length := by
  unfold objectFields
  simp only [List.length_append, length_sortByNum]
  exact length_filter_add_length_filter_not _ _

theorem objectFields_of_no_index_key (entries : List (String × String))
    (h : ∀ p ∈ insertOrderFields entries, isArrayIndexKey p.1 = false) :
    objectFields entries = insertOrderFields entries := by
  unfold objectFields
  have h1 : (insertOrderFields entries).filter (fun p => isArrayIndexKey p.1) = [] := by
    rw [List.filter_eq_nil_iff]
    intro p hp
    simp [h p hp]
  have h2 : ((insertOrderFields entries).filter fun p => !isArrayIndexKey p.1)
      = insertOrderFields entries := by
    rw [List.filter_eq_self]
    intro p hp
    simp [h p hp]
  rw [h1, h2, sortByNum, List.nil_append]

theorem map_fst_schemaEntries (C : List Category) (fb : FallbackPolicy) :
    (schemaEntries C fb).map Prod.fst =
      C.map Category.category ++
        (if fb = FallbackPolicy.other then ["fallback"] else []) := by
  unfold schemaEntries
  by_cases h : fb = FallbackPolicy.other <;> simp [h]

end TextClassifier

namespace TextClassifier

theorem map_fst_catEntries (C : List Category) :
    ((C.map fun cat => (cat.category, categoryFieldDescription cat)).map Prod.fst)
      = C.map Category.category := by
  simp [List.map_map]

theorem nodup_keys_schemaEntries (C : List Category) (fb : FallbackPolicy)
    (hnd : (C.map Category.category).Nodup)
    (hfb : fb = FallbackPolicy.other → "fallback" ∉ C.map Category.category) :
    ((schemaEntries C fb).map Prod.fst).Nodup := by
  rw [map_fst_schemaEntries]
  by_cases h : fb = FallbackPolicy.other
  · simp only [h, if_pos, List.nodup_append]
    refine ⟨hnd, by simp, ?_⟩
    intro a ha hb
    simp only [List.mem_singleton] at hb
    exact hfb h (hb ▸ ha)
  · simpa [h] using hnd

theorem buildSchema_eq_of_nodup (C : List Category) (fb : FallbackPolicy)
    (hnd : (C.map Category.category).Nodup)
    (hfb : fb = FallbackPolicy.other → "fallback" ∉ C.map Category.category)
    (hnum : ∀ c ∈ C, isArrayIndexKey c.category = false) :
    buildSchema C fb = schemaEntries C fb := by
  unfold buildSchema
  have hins : insertOrderFields (schemaEntries C fb) = schemaEntries C fb :=
    insertOrderFields_of_nodup _ (nodup_keys_schemaEntries C fb hnd hfb)
  rw [objectFields_of_no_index_key _ ?_]
  · exact hins
  · rw [hins]
    intro p hp
    unfold schemaEntries at hp
    rcases List.mem_append.mp hp with hcat | hflb
    · obtain ⟨c, hc, hce⟩ := List.mem_map.mp hcat
      have := hnum c hc
      rw [← hce]
      simpa using this
    · by_cases h : fb = FallbackPolicy.other
      · simp only [h, if_pos, List.mem_singleton] at hflb
        rw [hflb]
        decide
      · simp [h] at hflb

theorem buildSchema_length_of_fallback_name (C : List Category)
    (hnd : (C.map Category.category).Nodup)
    (hmem : "fallback" ∈ C.map Category.category) :
    (buildSchema C FallbackPolicy.other).length = C.length := by
  unfold buildSchema
  rw [length_objectFields]
  unfold schemaEntries
  simp only [if_pos]
  have hcat : insertOrderFields (C.map fun cat => (cat.category, categoryFieldDescription cat))
      = C.map fun cat => (cat.category, categoryFieldDescription cat) := by
    apply insertOrderFields_of_nodup
    rw [map_fst_catEntries]
    exact hnd
  unfold insertOrderFields
  rw [List.foldl_append]
  have : (C.map fun cat => (cat.category, categoryFieldDescription cat)).foldl insertEntry []
      = C.map fun cat => (cat.category, categoryFieldDescription cat) := hcat
  rw [this, List.foldl_cons, List.foldl_nil]
  rw [length_insertEntry_of_mem]
  · simp
  · rw [map_fst_catEntries]
    exact hmem

end TextClassifier

namespace TextClassifier

/-- What one loop iteration for a successfully classified item `j` with parsed
answer `output` appends to branch `k`. -/
def catContrib (output : List (String × Bool)) (j : Nat) :
    List Category → Nat → Nat → List OutItem
  | [], _, _ => []
  | cat :: rest, i0, k =>
      (if k = i0 ∧ lookupBool output cat.category = true then [OutItem.routed j] else []) ++
        catContrib output j rest (i0 + 1) k

def successContrib (cfg : PerItemConfig) (output : List (String × Bool)) (j k : Nat) :
    List OutItem :=
  catContrib output j cfg.categories 0 k ++
    (if cfg.fallback = FallbackPolicy.other ∧ lookupBool output "fallback" = true
        ∧ k = cfg.categories.length then [OutItem.routed j] else [])

/-- What the loop iteration for item `j` with environment `env` appends to
branch `k`, provided the iteration does not abort. -/
def contribOne (cfg : PerItemConfig) (j : Nat) (env : ItemEnv) (k : Nat) : List OutItem :=
  match env.inputText with
  | none => if k = 0 then [OutItem.errorRecord "Text to classify is not defined" j] else []
  | some _ =>
      match env.invokeResult with
      | .ok output => successContrib cfg output j k
      | .error msg => if k = 0 then [OutItem.errorRecord msg j] else []

/-- Accumulated contributions of the items `envs` (numbered from `i`) to
branch `k`. -/
def allContribs (cfg : PerItemConfig) : Nat → List ItemEnv → Nat → List OutItem
  | _, [], _ => []
  | i, env :: rest, k => contribOne cfg i env k ++ allContribs cfg (i + 1) rest k

/-- Number of `chain.invoke` calls one loop iteration makes. -/
def callsOne (env : ItemEnv) : Nat :=
  match env.inputText with
  | none => 0
  | some _ => 1

/-- Number of `chain.invoke` calls a loop over `envs` makes when no iteration
aborts. -/
def callsAll : List ItemEnv → Nat
  | [] => 0
  | env :: rest => callsOne env + callsAll rest

theorem length_pushAt (x : OutItem) :
    ∀ (rd : List (List OutItem)) (i : Nat), (pushAt rd i x).length = rd.length := by
  intro rd
  induction rd with
  | nil => intro i; rfl
  | cons b rest ih =>
      intro i
      cases i with
      | zero => rfl
      | succ i' => simp [pushAt, ih i']

theorem getD_pushAt (x : OutItem) :
    ∀ (rd : List (List OutItem)) (i k : Nat), i < rd.length →
      (pushAt rd i x).getD k [] = rd.getD k [] ++ (if k = i then [x] else []) := by
  intro rd
  induction rd with
  | nil => intro i k h; simp at h
  | cons b rest ih =>
      intro i k h
      cases i with
      | zero =>
          cases k with
          | zero => simp [pushAt]
          | succ k' => simp [pushAt]
      | succ i' =>
          cases k with
          | zero => simp [pushAt]
          | succ k' =>
              simp only [pushAt, List.getD_cons_succ]
              rw [ih i' k' (by simpa using h)]
              by_cases hk : k' = i' <;> simp [hk]

theorem length_routeCats (output : List (String × Bool)) (j : Nat) :
    ∀ (cats : List Category) (i0 : Nat) (rd : List (List OutItem)),
      (routeCats cats output j i0 rd).length = rd.length := by
  intro cats
  induction cats with
  | nil => intro i0 rd; rfl
  | cons cat rest ih =>
      intro i0 rd
      simp only [routeCats]
      rw [ih (i0 + 1)]
      by_cases hc : lookupBool output cat.category = true <;> simp [hc, length_pushAt]

theorem getD_routeCats (output : List (String × Bool)) (j : Nat) :
    ∀ (cats : List Category) (i0 : Nat) (rd : List (List OutItem)),
      i0 + cats.length ≤ rd.length →
      ∀ k, (routeCats cats output j i0 rd).getD k []
        = rd.getD k [] ++ catContrib output j cats i0 k := by
  intro cats
  induction cats with
  | nil => intro i0 rd h k; simp [routeCats, catContrib]
  | cons cat rest ih =>
      intro i0 rd h k
      simp only [routeCats, catContrib]
      by_cases hc : lookupBool output cat.category = true
      · simp only [hc, if_true, and_true]
        rw [ih (i0 + 1) (pushAt rd i0 (OutItem.routed j)) ?hlen k]
        case hlen =>
          rw [length_pushAt]
          simp only [List.length_cons] at h
          omega
        rw [getD_pushAt (OutItem.routed j) rd i0 k ?hi]
        case hi =>
          simp only [List.length_cons] at h
          omega
        rw [List.append_assoc]
      · simp only [Bool.not_eq_true] at hc
        simp only [hc, Bool.false_eq_true, if_false, and_false, ite_false, List.nil_append]
        rw [ih (i0 + 1) rd ?hlen k]
        case hlen =>
          simp only [List.length_cons] at h
          omega

theorem length_routeItem (cfg : PerItemConfig) (output : List (String × Bool)) (j : Nat)
    (rd : List (List OutItem)) : (routeItem cfg output j rd).length = rd.length := by
  unfold routeItem
  by_cases hf : cfg.fallback = FallbackPolicy.other ∧ lookupBool output "fallback" = true
  · rw [if_pos hf, length_pushAt, length_routeCats]
  · rw [if_neg hf, length_routeCats]

theorem getD_routeItem (cfg : PerItemConfig) (output : List (String × Bool)) (j : Nat)
    (rd : List (List OutItem)) (hlen : rd.length = branchCount cfg) (k : Nat) :
    (routeItem cfg output j rd).getD k [] = rd.getD k [] ++ successContrib cfg output j k := by
  unfold routeItem successContrib
  have hcats : 0 + cfg.categories.length ≤ rd.length := by
    rw [hlen]; unfold branchCount; omega
  by_cases hf : cfg.fallback = FallbackPolicy.other ∧ lookupBool output "fallback" = true
  · rw [if_pos hf]
    have hlen1 : (routeCats cfg.categories output j 0 rd).length = rd.length :=
      length_routeCats output j cfg.categories 0 rd
    have hbc : rd.length = cfg.categories.length + 1 := by
      rw [hlen]; unfold branchCount; rw [if_pos hf.1]
    rw [getD_pushAt (OutItem.routed j) _ _ k ?hi]
    case hi => rw [hlen1]; omega
    rw [getD_routeCats output j cfg.categories 0 rd hcats k]
    rw [hlen1, hbc]
    simp only [Nat.add_sub_cancel]
    have hite : (if cfg.fallback = FallbackPolicy.other ∧ lookupBool output "fallback" = true
        ∧ k = cfg.categories.length then [OutItem.routed j] else [])
        = (if k = cfg.categories.length then [OutItem.routed j] else []) := by
      by_cases hk : k = cfg.categories.length
      · rw [if_pos hk, if_pos ⟨hf.1, hf.2, hk⟩]
      · rw [if_neg hk, if_neg (fun hcon => hk hcon.2.2)]
    rw [hite, List.append_assoc]
  · have hite : (if cfg.fallback = FallbackPolicy.other ∧ lookupBool output "fallback" = true
        ∧ k = cfg.categories.length then [OutItem.routed j] else []) = [] := by
      rw [if_neg]
      intro hcon
      exact hf ⟨hcon.1, hcon.2.1⟩
    rw [if_neg hf, hite, List.append_nil]
    exact getD_routeCats output j cfg.categories 0 rd hcats k

end TextClassifier

namespace TextClassifier

theorem stepItem_ok (cfg : PerItemConfig) (j : Nat) (env : ItemEnv) (st st' : LoopState)
    (hlen : st.returnData.length = branchCount cfg) (hpos : 0 < branchCount cfg)
    (h : stepItem cfg j env st = .ok st') :
    (∀ k, st'.returnData.getD k [] = st.returnData.getD k [] ++ contribOne cfg j env k)
    ∧ st'.returnData.length = branchCount cfg
    ∧ st'.modelCalls = st.modelCalls + callsOne env := by
  unfold stepItem at h
  unfold contribOne callsOne
  cases henv : env.inputText with
  | none =>
      rw [henv] at h
      cases hc : cfg.continueOnFail with
      | false => rw [hc] at h; simp at h
      | true =>
          rw [hc] at h
          simp only [if_true] at h
          have hst' : st' = ⟨pushAt st.returnData 0
              (.errorRecord "Text to classify is not defined" j), st.modelCalls⟩ :=
            ((Except.ok.injEq _ _).mp h).symm
          subst hst'
          refine ⟨?_, ?_, ?_⟩
          · intro k
            rw [getD_pushAt _ _ _ _ (by omega)]
          · simp [length_pushAt, hlen]
          · simp
  | some s =>
      rw [henv] at h
      cases hinv : env.invokeResult with
      | ok output =>
          rw [hinv] at h
          have hst' : st' = ⟨routeItem cfg output j st.returnData, st.modelCalls + 1⟩ :=
            ((Except.ok.injEq _ _).mp h).symm
          subst hst'
          refine ⟨?_, ?_, ?_⟩
          · intro k
            exact getD_routeItem cfg output j st.returnData hlen k
          · simp [length_routeItem, hlen]
          · simp
      | error msg =>
          rw [hinv] at h
          cases hc : cfg.continueOnFail with
          | false => rw [hc] at h; simp at h
          | true =>
              rw [hc] at h
              simp only [if_true] at h
              have hst' : st' = ⟨pushAt st.returnData 0 (.errorRecord msg j),
                  st.modelCalls + 1⟩ := ((Except.ok.injEq _ _).mp h).symm
              subst hst'
              refine ⟨?_, ?_, ?_⟩
              · intro k
                rw [getD_pushAt _ _ _ _ (by omega)]
              · simp [length_pushAt, hlen]
              · simp

end TextClassifier

namespace TextClassifier

theorem execItems_ok (cfg : PerItemConfig) :
    ∀ (envs : List ItemEnv) (i : Nat) (st st' : LoopState),
      st.returnData.length = branchCount cfg → 0 < branchCount cfg →
      execItems cfg i envs st = .ok st' →
      (∀ k, st'.returnData.getD k [] = st.returnData.getD k [] ++ allContribs cfg i envs k)
      ∧ st'.returnData.length = branchCount cfg
      ∧ st'.modelCalls = st.modelCalls + callsAll envs := by
  intro envs
  induction envs with
  | nil =>
      intro i st st' hlen hpos h
      simp only [execItems] at h
      have : st = st' := (Except.ok.injEq _ _).mp h
      subst this
      exact ⟨fun k => by simp [allContribs], hlen, by simp [callsAll]⟩
  | cons env rest ih =>
      intro i st st' hlen hpos h
      simp only [execItems] at h
      cases hstep : stepItem cfg i env st with
      | error e => rw [hstep] at h; simp at h
      | ok st1 =>
          rw [hstep] at h
          obtain ⟨hstep1, hstep2, hstep3⟩ := stepItem_ok cfg i env st st1 hlen hpos hstep
          obtain ⟨hrec1, hrec2, hrec3⟩ := ih (i + 1) st1 st' hstep2 hpos h
          refine ⟨?_, hrec2, ?_⟩
          · intro k
            rw [hrec1 k, hstep1 k]
            simp [allContribs, List.append_assoc]
          · rw [hrec3, hstep3]
            simp only [callsAll]
            omega

theorem getD_replicate_nil : ∀ (n k : Nat),
    (List.replicate n ([] : List OutItem)).getD k [] = [] := by
  intro n
  induction n with
  | zero => intro k; simp [List.replicate]
  | succ n' ih =>
      intro k
      cases k with
      | zero => simp [List.replicate]
      | succ k' => simp only [List.replicate, List.getD_cons_succ]; exact ih k'

theorem executePerItem_ok (cfg : PerItemConfig) (items : List ItemEnv) (st : LoopState)
    (h : executePerItem cfg items = .ok st) :
    (∀ k, st.returnData.getD k [] = allContribs cfg 0 items k)
    ∧ st.returnData.length = branchCount cfg
    ∧ st.modelCalls = callsAll items
    ∧ cfg.categories ≠ [] := by
  unfold executePerItem at h
  by_cases hc : cfg.categories.isEmpty
  · rw [if_pos hc] at h; simp at h
  · rw [if_neg hc] at h
    have hne : cfg.categories ≠ [] := by
      intro hnil; exact hc (by simp [hnil])
    have hpos : 0 < branchCount cfg := by
      unfold branchCount
      have : 0 < cfg.categories.length := List.length_pos.mpr hne
      omega
    obtain ⟨h1, h2, h3⟩ := execItems_ok cfg items 0
      ⟨List.replicate (branchCount cfg) [], 0⟩ st (by simp) hpos h
    refine ⟨?_, h2, by simpa using h3, hne⟩
    intro k
    have := h1 k
    rwa [getD_replicate_nil (branchCount cfg) k, List.nil_append] at this

theorem stepItem_tolerant_ok (cfg : PerItemConfig) (j : Nat) (env : ItemEnv) (st : LoopState)
    (hc : cfg.continueOnFail = true) : ∃ st', stepItem cfg j env st = .ok st' := by
  unfold stepItem
  cases env.inputText with
  | none => rw [hc]; exact ⟨_, rfl⟩
  | some s =>
      cases env.invokeResult with
      | ok output => exact ⟨_, rfl⟩
      | error msg => rw [hc]; exact ⟨_, rfl⟩

theorem stepItem_envOk_ok (cfg : PerItemConfig) (j : Nat) (env : ItemEnv) (st : LoopState)
    (h : envOk env = true) : ∃ st', stepItem cfg j env st = .ok st' := by
  unfold stepItem
  unfold envOk at h
  cases henv : env.inputText with
  | none => rw [henv] at h; simp at h
  | some s =>
      cases hinv : env.invokeResult with
      | ok output => exact ⟨_, rfl⟩
      | error msg => rw [henv, hinv] at h; simp at h

theorem execItems_tolerant_ok (cfg : PerItemConfig) (hc : cfg.continueOnFail = true) :
    ∀ (envs : List ItemEnv) (i : Nat) (st : LoopState),
      ∃ st', execItems cfg i envs st = .ok st' := by
  intro envs
  induction envs with
  | nil => intro i st; exact ⟨st, rfl⟩
  | cons env rest ih =>
      intro i st
      obtain ⟨st1, hst1⟩ := stepItem_tolerant_ok cfg i env st hc
      obtain ⟨st', hst'⟩ := ih (i + 1) st1
      refine ⟨st', ?_⟩
      simp only [execItems, hst1, hst']

theorem execItems_allOk_ok (cfg : PerItemConfig) :
    ∀ (envs : List ItemEnv), (∀ env ∈ envs, envOk env = true) →
      ∀ (i : Nat) (st : LoopState), ∃ st', execItems cfg i envs st = .ok st' := by
  intro envs
  induction envs with
  | nil => intro _ i st; exact ⟨st, rfl⟩
  | cons env rest ih =>
      intro hall i st
      obtain ⟨st1, hst1⟩ := stepItem_envOk_ok cfg i env st (hall env (by simp))
      obtain ⟨st', hst'⟩ := ih (fun e he => hall e (by simp [he])) (i + 1) st1
      refine ⟨st', ?_⟩
      simp only [execItems, hst1, hst']

theorem executePerItem_tolerant_ok (cfg : PerItemConfig) (items : List ItemEnv)
    (hc : cfg.continueOnFail = true) (hne : cfg.categories ≠ []) :
    ∃ st, executePerItem cfg items = .ok st := by
  unfold executePerItem
  rw [if_neg (by simpa using hne)]
  exact execItems_tolerant_ok cfg hc items 0 _

theorem executePerItem_allOk_ok (cfg : PerItemConfig) (items : List ItemEnv)
    (hall : ∀ env ∈ items, envOk env = true) (hne : cfg.categories ≠ []) :
    ∃ st, executePerItem cfg items = .ok st := by
  unfold executePerItem
  rw [if_neg (by simpa using hne)]
  exact execItems_allOk_ok cfg items hall 0 _

end TextClassifier

namespace TextClassifier

theorem mem_catContrib_eq (output : List (String × Bool)) (j : Nat) (x : OutItem) :
    ∀ (cats : List Category) (i0 k : Nat),
      x ∈ catContrib output j cats i0 k → x = OutItem.routed j := by
  intro cats
  induction cats with
  | nil => intro i0 k h; simp [catContrib] at h
  | cons cat rest ih =>
      intro i0 k h
      simp only [catContrib, List.mem_append] at h
      rcases h with h | h
      · by_cases hc : k = i0 ∧ lookupBool output cat.category = true
        · rw [if_pos hc] at h; simpa using h
        · rw [if_neg hc] at h; simp at h
      · exact ih (i0 + 1) k h

theorem routed_mem_catContrib (output : List (String × Bool)) (j : Nat) :
    ∀ (cats : List Category) (i0 k : Nat),
      (OutItem.routed j ∈ catContrib output j cats i0 k ↔
        (i0 ≤ k ∧ k - i0 < cats.length ∧
          lookupBool output ((cats.getD (k - i0) default).category) = true)) := by
  intro cats
  induction cats with
  | nil =>
      intro i0 k
      simp [catContrib]
  | cons cat rest ih =>
      intro i0 k
      simp only [catContrib, List.mem_append]
      constructor
      · rintro (h | h)
        · by_cases hc : k = i0 ∧ lookupBool output cat.category = true
          · obtain ⟨hk, hl⟩ := hc
            subst hk
            refine ⟨le_refl _, by simp, ?_⟩
            simpa using hl
          · rw [if_neg hc] at h; simp at h
        · obtain ⟨h1, h2, h3⟩ := (ih (i0 + 1) k).mp h
          have hki : k - i0 = (k - (i0 + 1)) + 1 := by omega
          refine ⟨by omega, ?_, ?_⟩
          · simp only [List.length_cons]
            omega
          · rw [hki]
            simpa using h3
      · rintro ⟨h1, h2, h3⟩
        by_cases hk : k = i0
        · subst hk
          simp only [Nat.sub_self, List.getD_cons_zero] at h3
          left
          rw [if_pos ⟨rfl, h3⟩]
          simp
        · right
          apply (ih (i0 + 1) k).mpr
          have hki : k - i0 = (k - (i0 + 1)) + 1 := by omega
          rw [hki] at h3
          simp only [List.length_cons] at h2
          refine ⟨by omega, by omega, ?_⟩
          simpa using h3

theorem mem_contribOne_outIdx (cfg : PerItemConfig) (j : Nat) (env : ItemEnv) (k : Nat)
    (x : OutItem) (h : x ∈ contribOne cfg j env k) : outIdx x = j := by
  unfold contribOne at h
  cases henv : env.inputText with
  | none =>
      rw [henv] at h
      by_cases hk : k = 0
      · rw [if_pos hk] at h
        simp only [List.mem_singleton] at h
        rw [h]; rfl
      · rw [if_neg hk] at h; simp at h
  | some s =>
      rw [henv] at h
      cases hinv : env.invokeResult with
      | ok output =>
          rw [hinv] at h
          unfold successContrib at h
          rcases List.mem_append.mp h with h | h
          · rw [mem_catContrib_eq output j x cfg.categories 0 k h]; rfl
          · by_cases hc : cfg.fallback = FallbackPolicy.other
                ∧ lookupBool output "fallback" = true ∧ k = cfg.categories.length
            · rw [if_pos hc] at h
              simp only [List.mem_singleton] at h
              rw [h]; rfl
            · rw [if_neg hc] at h; simp at h
      | error msg =>
          rw [hinv] at h
          have hx : x = OutItem.errorRecord msg j := by
            by_cases hk : k = 0
            · simpa [hk] using h
            · simp [hk] at h
          rw [hx]; rfl

theorem mem_allContribs (cfg : PerItemConfig) (k : Nat) (x : OutItem) :
    ∀ (envs : List ItemEnv) (i : Nat),
      (x ∈ allContribs cfg i envs k ↔
        ∃ m, ∃ h : m < envs.length, x ∈ contribOne cfg (i + m) (envs.get ⟨m, h⟩) k) := by
  intro envs
  induction envs with
  | nil =>
      intro i
      simp [allContribs]
  | cons env rest ih =>
      intro i
      simp only [allContribs, List.mem_append]
      constructor
      · rintro (h | h)
        · exact ⟨0, by simp, by simpa using h⟩
        · obtain ⟨m, hm, hmem⟩ := (ih (i + 1)).mp h
          refine ⟨m + 1, by simpa using hm, ?_⟩
          have : i + 1 + m = i + (m + 1) := by omega
          rw [this] at hmem
          simpa using hmem
      · rintro ⟨m, hm, hmem⟩
        cases m with
        | zero => left; simpa using hmem
        | succ m' =>
            right
            apply (ih (i + 1)).mpr
            refine ⟨m', by simpa using hm, ?_⟩
            have : i + (m' + 1) = i + 1 + m' := by omega
            rw [this] at hmem
            simpa using hmem

end TextClassifier

namespace TextClassifier

theorem getD_eq_get {α : Type} [Inhabited α] :
    ∀ (l : List α) (k : Nat) (h : k < l.length), l.getD k default = l.get ⟨k, h⟩ := by
  intro l
  induction l with
  | nil => intro k h; simp at h
  | cons a rest ih =>
      intro k h
      cases k with
      | zero => simp
      | succ k' =>
          simp only [List.getD_cons_succ]
          rw [ih k' (by simpa using h)]
          rfl

theorem routed_mem_success (cfg : PerItemConfig) (items : List ItemEnv) (st : LoopState)
    (h : executePerItem cfg items = Except.ok st) (j : Nat) (hj : j < items.length)
    (s : String) (out : List (String × Bool))
    (hs : (items.get ⟨j, hj⟩).inputText = some s)
    (ho : (items.get ⟨j, hj⟩).invokeResult = Except.ok out) :
    (∀ k, (hk : k < cfg.categories.length) →
      (OutItem.routed j ∈ st.returnData.getD k [] ↔
        lookupBool out ((cfg.categories.get ⟨k, hk⟩).category) = true))
    ∧ (cfg.fallback = FallbackPolicy.other →
        (OutItem.routed j ∈ st.returnData.getD cfg.categories.length [] ↔
          lookupBool out "fallback" = true)) := by
  obtain ⟨hbr, -, -, -⟩ := executePerItem_ok cfg items st h
  have hco : ∀ k, contribOne cfg j (items.get ⟨j, hj⟩) k = successContrib cfg out j k := by
    intro k
    unfold contribOne
    rw [hs, ho]
  have hmem : ∀ k, (OutItem.routed j ∈ st.returnData.getD k [] ↔
      OutItem.routed j ∈ successContrib cfg out j k) := by
    intro k
    rw [hbr k, mem_allContribs cfg k _ items 0]
    constructor
    · rintro ⟨m, hm, hmm⟩
      have hidx := mem_contribOne_outIdx cfg (0 + m) (items.get ⟨m, hm⟩) k _ hmm
      simp only [outIdx, Nat.zero_add] at hidx
      subst hidx
      have hmm' : OutItem.routed j ∈ contribOne cfg j (items.get ⟨j, hj⟩) k := by
        simpa using hmm
      rwa [hco k] at hmm'
    · intro hcmem
      refine ⟨j, hj, ?_⟩
      simp only [Nat.zero_add, hco k]
      exact hcmem
  constructor
  · intro k hk
    rw [hmem k]
    unfold successContrib
    rw [List.mem_append]
    constructor
    · rintro (hcat | hite)
      · obtain ⟨-, h2, h3⟩ := (routed_mem_catContrib out j cfg.categories 0 k).mp hcat
        rwa [Nat.sub_zero, getD_eq_get cfg.categories k hk] at h3
      · rw [if_neg (fun hcon => absurd hcon.2.2 (by omega))] at hite
        simp at hite
    · intro hl
      left
      apply (routed_mem_catContrib out j cfg.categories 0 k).mpr
      refine ⟨by omega, by omega, ?_⟩
      rwa [Nat.sub_zero, getD_eq_get cfg.categories k hk]
  · intro hother
    rw [hmem cfg.categories.length]
    unfold successContrib
    rw [List.mem_append]
    constructor
    · rintro (hcat | hite)
      · obtain ⟨-, h2, -⟩ := (routed_mem_catContrib out j cfg.categories 0
          cfg.categories.length).mp hcat
        omega
      · by_cases hl : lookupBool out "fallback" = true
        · exact hl
        · rw [if_neg (fun hcon => hl hcon.2.1)] at hite
          simp at hite
    · intro hl
      right
      rw [if_pos ⟨hother, hl, rfl⟩]
      simp

theorem errorRecord_mem_branch0 (cfg : PerItemConfig) (items : List ItemEnv) (st : LoopState)
    (h : executePerItem cfg items = Except.ok st) (j : Nat) (hj : j < items.length)
    (hfail : envOk (items.get ⟨j, hj⟩) = false) :
    ∃ msg, OutItem.errorRecord msg j ∈ st.returnData.getD 0 [] := by
  obtain ⟨hbr, -, -, -⟩ := executePerItem_ok cfg items st h
  rw [hbr 0]
  unfold envOk at hfail
  cases henv : (items.get ⟨j, hj⟩).inputText with
  | none =>
      refine ⟨"Text to classify is not defined", ?_⟩
      rw [mem_allContribs]
      refine ⟨j, hj, ?_⟩
      simp only [Nat.zero_add]
      unfold contribOne
      rw [henv]
      simp
  | some s =>
      rw [henv] at hfail
      cases hinv : (items.get ⟨j, hj⟩).invokeResult with
      | ok out => rw [hinv] at hfail; simp at hfail
      | error msg =>
          refine ⟨msg, ?_⟩
          rw [mem_allContribs]
          refine ⟨j, hj, ?_⟩
          simp only [Nat.zero_add]
          unfold contribOne
          rw [henv, hinv]
          simp

end TextClassifier

namespace TextClassifier

theorem execItems_first_fail (cfg : PerItemConfig) (hc : cfg.continueOnFail = false) :
    ∀ (envs : List ItemEnv) (j : Nat) (hj : j < envs.length) (i : Nat) (st : LoopState),
      (∀ m, (hm : m < j) → envOk (envs.get ⟨m, Nat.lt_trans hm hj⟩) = true) →
      envOk (envs.get ⟨j, hj⟩) = false →
      (((envs.get ⟨j, hj⟩).inputText = none →
          execItems cfg i envs st = .error (.operationError (missingTextMsg (i + j))))
       ∧ (∀ s msg, (envs.get ⟨j, hj⟩).inputText = some s →
            (envs.get ⟨j, hj⟩).invokeResult = .error msg →
            execItems cfg i envs st = .error (.chainError msg))) := by
  intro envs
  induction envs with
  | nil => intro j hj; simp at hj
  | cons env rest ih =>
      intro j hj i st hpre hfail
      cases j with
      | zero =>
          have hget : (env :: rest).get ⟨0, hj⟩ = env := rfl
          rw [hget] at hfail
          constructor
          · intro hnone
            rw [hget] at hnone
            simp only [execItems]
            unfold stepItem
            rw [hnone, hc]
            simp
          · intro s msg hsome hinv
            rw [hget] at hsome hinv
            simp only [execItems]
            unfold stepItem
            rw [hsome, hinv, hc]
            simp
      | succ j' =>
          have h0 : envOk env = true := hpre 0 (Nat.succ_pos j')
          have hrest : j' < rest.length := by simpa using hj
          have hstep : ∃ st1, stepItem cfg i env st = .ok st1 :=
            stepItem_envOk_ok cfg i env st h0
          obtain ⟨st1, hst1⟩ := hstep
          have hrec := ih j' hrest (i + 1) st1
            (fun m hm => hpre (m + 1) (by omega))
            (by simpa using hfail)
          have hgets : ((env :: rest).get ⟨j' + 1, hj⟩) = rest.get ⟨j', hrest⟩ := rfl
          rw [hgets]
          constructor
          · intro hnone
            simp only [execItems, hst1]
            have := hrec.1 hnone
            rwa [show (i + 1) + j' = i + (j' + 1) by omega] at this
          · intro s msg hsome hinv
            simp only [execItems, hst1]
            exact hrec.2 s msg hsome hinv

end TextClassifier

namespace TextClassifier

theorem callsAll_eq_length :
    ∀ (items : List ItemEnv), (∀ env ∈ items, envOk env = true) →
      callsAll items = items.length := by
  intro items
  induction items with
  | nil => intro _; rfl
  | cons env rest ih =>
      intro hall
      have h0 : envOk env = true := hall env (by simp)
      have h1 : callsOne env = 1 := by
        unfold callsOne
        unfold envOk at h0
        cases henv : env.inputText with
        | none => rw [henv] at h0; simp at h0
        | some s => rfl
      simp only [callsAll, h1, List.length_cons]
      rw [ih (fun e he => hall e (by simp [he]))]
      omega

theorem insertByNum_perm (e : String × String) :
    ∀ l : List (String × String), (insertByNum e l).Perm (e :: l) := by
  intro l
  induction l with
  | nil => exact List.Perm.refl _
  | cons f rest ih =>
      unfold insertByNum
      by_cases h : keyNum e ≤ keyNum f
      · rw [if_pos h]
      · rw [if_neg h]
        exact (ih.cons f).trans (List.Perm.swap e f rest)

theorem sortByNum_perm : ∀ l : List (String × String), (sortByNum l).Perm l := by
  intro l
  induction l with
  | nil => exact List.Perm.refl _
  | cons e rest ih =>
      unfold sortByNum
      exact (insertByNum_perm e (sortByNum rest)).trans (ih.cons e)

theorem objectFields_perm (entries : List (String × String)) :
    (objectFields entries).Perm (insertOrderFields entries) := by
  unfold objectFields
  exact List.Perm.trans
    (List.Perm.append (sortByNum_perm _) (List.Perm.refl _))
    (List.filter_append_perm _ _)

theorem nodup_keys_foldl_insertEntry :
    ∀ (l acc : List (String × String)), ((acc.map Prod.fst).Nodup) →
      (((l.foldl insertEntry acc).map Prod.fst).Nodup) := by
  intro l
  induction l with
  | nil => intro acc h; exact h
  | cons e rest ih =>
      intro acc h
      rw [List.foldl_cons]
      apply ih
      rw [map_fst_insertEntry]
      by_cases hm : e.1 ∈ acc.map Prod.fst
      · rwa [if_pos hm]
      · rw [if_neg hm]
        simp only [List.nodup_append, List.nodup_singleton]
        exact ⟨h, trivial, by simpa using hm⟩

theorem nodup_keys_buildSchema (C : List Category) (fb : FallbackPolicy) :
    ((buildSchema C fb).map Prod.fst).Nodup := by
  unfold buildSchema
  have hperm := (objectFields_perm (schemaEntries C fb)).map Prod.fst
  rw [hperm.nodup_iff]
  exact nodup_keys_foldl_insertEntry (schemaEntries C fb) [] (by simp)

end TextClassifier

namespace TextClassifier

/-- Claim C1: in per-item mode, for every input item whose classification
succeeds, the Router appends the item to the branch of every category whose
answer field is true, and additionally to the trailing fallback branch when
the fallback policy is `other` and the answer has its `fallback` field true;
this holds for every value of `multiClass`, so in particular under
`multiClass = false` the Router does not enforce exclusivity: an answer with
several true fields places the item on every corresponding branch. -/
theorem claim_C1 (cfg : PerItemConfig) (items : List ItemEnv) (st : LoopState)
    (h : executePerItem cfg items = Except.ok st) (j : Nat) (hj : j < items.length)
    (s : String) (out : List (String × Bool))
    (hs : (items.get ⟨j, hj⟩).inputText = some s)
    (ho : (items.get ⟨j, hj⟩).invokeResult = Except.ok out) :
    (∀ k, (hk : k < cfg.categories.length) →
      (OutItem.routed j ∈ st.returnData.getD k [] ↔
        lookupBool out ((cfg.categories.get ⟨k, hk⟩).category) = true))
    ∧ (cfg.fallback = FallbackPolicy.other →
        (OutItem.routed j ∈ st.returnData.getD cfg.categories.length [] ↔
          lookupBool out "fallback" = true)) :=
  routed_mem_success cfg items st h j hj s out hs ho

theorem claim_C1_witness :
    (OutItem.routed 0 ∈
      ([[OutItem.routed 0], [OutItem.routed 0], []] : List (List OutItem)).getD 0 [])
    ∧ (OutItem.routed 0 ∈
      ([[OutItem.routed 0], [OutItem.routed 0], []] : List (List OutItem)).getD 1 []) := by
  have happ := claim_C1
    ⟨[⟨"Bug", "b"⟩, ⟨"Feature", "f"⟩], false, FallbackPolicy.other, false, false⟩
    [⟨some "t", Except.ok [("Bug", true), ("Feature", true), ("fallback", false)]⟩]
    ⟨[[OutItem.routed 0], [OutItem.routed 0], []], 1⟩
    rfl 0 (by decide) "t" [("Bug", true), ("Feature", true), ("fallback", false)] rfl rfl
  exact ⟨(happ.1 0 (by decide)).mpr (by decide), (happ.1 1 (by decide)).mpr (by decide)⟩

/-- Claim C3: in per-item mode with failure-tolerant mode active, the run never
raises on a per-item failure: for any batch the run completes, every failing
item (missing text or classification error) contributes an error record with
its index on branch 0, and every non-failing item is routed normally. -/
theorem claim_C3 (cfg : PerItemConfig) (hc : cfg.continueOnFail = true)
    (hne : cfg.categories ≠ []) (items : List ItemEnv) :
    ∃ st, executePerItem cfg items = Except.ok st
      ∧ (∀ j, (hj : j < items.length) → envOk (items.get ⟨j, hj⟩) = false →
          ∃ msg, OutItem.errorRecord msg j ∈ st.returnData.getD 0 [])
      ∧ (∀ j, (hj : j < items.length) → ∀ s out,
          (items.get ⟨j, hj⟩).inputText = some s →
          (items.get ⟨j, hj⟩).invokeResult = Except.ok out →
          (∀ k, (hk : k < cfg.categories.length) →
            (OutItem.routed j ∈ st.returnData.getD k [] ↔
              lookupBool out ((cfg.categories.get ⟨k, hk⟩).category) = true))
          ∧ (cfg.fallback = FallbackPolicy.other →
              (OutItem.routed j ∈ st.returnData.getD cfg.categories.length [] ↔
                lookupBool out "fallback" = true))) := by
  obtain ⟨st, hst⟩ := executePerItem_tolerant_ok cfg items hc hne
  refine ⟨st, hst, ?_, ?_⟩
  · intro j hj hfail
    exact errorRecord_mem_branch0 cfg items st hst j hj hfail
  · intro j hj s out hs ho
    exact routed_mem_success cfg items st hst j hj s out hs ho

theorem claim_C3_witness :
    ∃ st, executePerItem
        ⟨[⟨"A", "a"⟩], false, FallbackPolicy.discard, false, true⟩
        [⟨some "t", Except.error "boom"⟩, ⟨some "u", Except.ok [("A", true)]⟩]
      = Except.ok st
      ∧ (∃ msg, OutItem.errorRecord msg 0 ∈ st.returnData.getD 0 [])
      ∧ OutItem.routed 1 ∈ st.returnData.getD 0 [] := by
  obtain ⟨st, hok, herr, hroute⟩ := claim_C3
    ⟨[⟨"A", "a"⟩], false, FallbackPolicy.discard, false, true⟩ rfl (by decide)
    [⟨some "t", Except.error "boom"⟩, ⟨some "u", Except.ok [("A", true)]⟩]
  refine ⟨st, hok, herr 0 (by decide) rfl, ?_⟩
  exact ((hroute 1 (by decide) "u" [("A", true)] rfl rfl).1 0 (by decide)).mpr (by decide)

/-- Claim C5: in per-item mode with auto-fixing disabled, a batch of K items
whose texts are all defined and whose classifications all succeed causes
exactly K chain invocations — one per item (each such invocation is exactly
one model call, never K+1 nor K-1); the prompt template and answer schema are
bound once per execution, before the loop. -/
theorem claim_C5 (cfg : PerItemConfig) (_haf : cfg.enableAutoFixing = false)
    (hne : cfg.categories ≠ []) (items : List ItemEnv)
    (hall : ∀ env ∈ items, envOk env = true) :
    ∃ st, executePerItem cfg items = Except.ok st ∧ st.modelCalls = items.length := by
  obtain ⟨st, hst⟩ := executePerItem_allOk_ok cfg items hall hne
  refine ⟨st, hst, ?_⟩
  obtain ⟨-, -, hcalls, -⟩ := executePerItem_ok cfg items st hst
  rw [hcalls]
  exact callsAll_eq_length items hall

theorem claim_C5_witness :
    ∃ st, executePerItem
        ⟨[⟨"A", "a"⟩], false, FallbackPolicy.discard, false, false⟩
        [⟨some "t", Except.ok [("A", true)]⟩, ⟨some "u", Except.ok [("A", false)]⟩]
      = Except.ok st ∧ st.modelCalls = 2 := by
  obtain ⟨st, hok, hcalls⟩ := claim_C5
    ⟨[⟨"A", "a"⟩], false, FallbackPolicy.discard, false, false⟩ rfl (by decide)
    [⟨some "t", Except.ok [("A", true)]⟩, ⟨some "u", Except.ok [("A", false)]⟩]
    (by decide)
  exact ⟨st, hok, hcalls⟩

end TextClassifier

namespace TextClassifier

/-- Claim C2 (amended): for every non-empty category set with pairwise distinct
names, the built answer schema has exactly the claimed field counts
(additionally requiring, under the `other` policy, that no category is named
`fallback`, since the synthetic fallback entry collapses with such a
category); field order follows category-set order provided additionally no
name is a canonical array-index string (JavaScript objects order integer-like
keys first). -/
theorem claim_C2 (C : List Category) (_hne : C ≠ [])
    (hnd : (C.map Category.category).Nodup) :
    (buildSchema C FallbackPolicy.discard).length = C.length
    ∧ ("fallback" ∉ C.map Category.category →
        (buildSchema C FallbackPolicy.other).length = C.length + 1)
    ∧ ((∀ c ∈ C, isArrayIndexKey c.category = false) →
        ((buildSchema C FallbackPolicy.discard).map Prod.fst = C.map Category.category
         ∧ ("fallback" ∉ C.map Category.category →
             (buildSchema C FallbackPolicy.other).map Prod.fst
               = C.map Category.category ++ ["fallback"]))) := by
  have hkeysd : ((schemaEntries C FallbackPolicy.discard).map Prod.fst).Nodup :=
    nodup_keys_schemaEntries C FallbackPolicy.discard hnd (by intro h; cases h)
  refine ⟨?_, ?_, ?_⟩
  · unfold buildSchema
    rw [length_objectFields, insertOrderFields_of_nodup _ hkeysd]
    unfold schemaEntries
    simp
  · intro hnf
    have hkeyso : ((schemaEntries C FallbackPolicy.other).map Prod.fst).Nodup :=
      nodup_keys_schemaEntries C FallbackPolicy.other hnd (fun _ => hnf)
    unfold buildSchema
    rw [length_objectFields, insertOrderFields_of_nodup _ hkeyso]
    unfold schemaEntries
    simp
  · intro hnum
    constructor
    · rw [buildSchema_eq_of_nodup C FallbackPolicy.discard hnd (by intro h; cases h) hnum]
      rw [map_fst_schemaEntries]
      simp
    · intro hnf
      rw [buildSchema_eq_of_nodup C FallbackPolicy.other hnd (fun _ => hnf) hnum]
      rw [map_fst_schemaEntries]
      simp

/-- Claim C2, counterexample: as stated over every non-empty category set the
claim is false — a category named `fallback` collapses with the synthetic
fallback field, duplicate names collapse, and an array-index name breaks the
field order. -/
theorem claim_C2_counterexample :
    (buildSchema [⟨"fallback", "d"⟩] FallbackPolicy.other).length
        ≠ ([⟨"fallback", "d"⟩] : List Category).length + 1
    ∧ (buildSchema [⟨"A", "x"⟩, ⟨"A", "y"⟩] FallbackPolicy.discard).length
        ≠ ([⟨"A", "x"⟩, ⟨"A", "y"⟩] : List Category).length
    ∧ (buildSchema [⟨"b", "db"⟩, ⟨"0", "d0"⟩] FallbackPolicy.discard).map Prod.fst
        ≠ ([⟨"b", "db"⟩, ⟨"0", "d0"⟩] : List Category).map Category.category := by
  refine ⟨by decide, by decide, by decide⟩

theorem claim_C2_witness :
    (buildSchema [⟨"Bug", "defect"⟩, ⟨"Feature", "enh"⟩] FallbackPolicy.discard).length = 2
    ∧ (buildSchema [⟨"Bug", "defect"⟩, ⟨"Feature", "enh"⟩] FallbackPolicy.other).map Prod.fst
        = ["Bug", "Feature", "fallback"] := by
  have happ := claim_C2 [⟨"Bug", "defect"⟩, ⟨"Feature", "enh"⟩] (by decide) (by decide)
  exact ⟨happ.1, (happ.2.2 (by decide)).2 (by decide)⟩

/-- Claim C7 (amended): duplicate category names are not detected or rejected:
the run proceeds normally (no configuration error is raised on account of the
names), and the built schema silently collapses the duplicate entries — its
field keys are always duplicate-free. -/
theorem claim_C7 (C : List Category) (fb : FallbackPolicy) (cfg : PerItemConfig)
    (items : List ItemEnv) (hne : cfg.categories ≠ [])
    (hall : ∀ env ∈ items, envOk env = true) :
    ((buildSchema C fb).map Prod.fst).Nodup
    ∧ ∃ st, executePerItem cfg items = Except.ok st :=
  ⟨nodup_keys_buildSchema C fb, executePerItem_allOk_ok cfg items hall hne⟩

/-- Claim C7, counterexample: with two categories both named `A`, the run
completes successfully (routing the item to both branches) instead of failing
with a configuration/validation error. -/
theorem claim_C7_counterexample :
    executePerItem ⟨[⟨"A", "d1"⟩, ⟨"A", "d2"⟩], false, FallbackPolicy.discard, false, false⟩
        [⟨some "t", Except.ok [("A", true)]⟩]
      = Except.ok ⟨[[OutItem.routed 0], [OutItem.routed 0]], 1⟩ := rfl

theorem claim_C7_witness :
    ((buildSchema [⟨"A", "d1"⟩, ⟨"A", "d2"⟩] FallbackPolicy.discard).map Prod.fst).Nodup
    ∧ ∃ st, executePerItem
        ⟨[⟨"A", "d1"⟩, ⟨"A", "d2"⟩], false, FallbackPolicy.discard, false, false⟩
        [⟨some "t", Except.ok [("A", true)]⟩] = Except.ok st :=
  claim_C7 [⟨"A", "d1"⟩, ⟨"A", "d2"⟩] FallbackPolicy.discard
    ⟨[⟨"A", "d1"⟩, ⟨"A", "d2"⟩], false, FallbackPolicy.discard, false, false⟩
    [⟨some "t", Except.ok [("A", true)]⟩] (by decide) (by decide)

/-- Claim C9: if the fallback policy is `other` and some category is itself
named `fallback` (other names being distinct), the built schema contains only
`|C|` fields — the synthetic fallback entry overwrites the entry of that
category — and in per-item mode an item is appended both to the branch of
that category and
to the trailing fallback branch exactly when the single shared `fallback`
answer field is true. -/
theorem claim_C9 (cfg : PerItemConfig)
    (hnd : (cfg.categories.map Category.category).Nodup)
    (hfb : cfg.fallback = FallbackPolicy.other) (i : Nat)
    (hi : i < cfg.categories.length)
    (hname : (cfg.categories.get ⟨i, hi⟩).category = "fallback") :
    (buildSchema cfg.categories FallbackPolicy.other).length = cfg.categories.length
    ∧ (∀ (items : List ItemEnv) (st : LoopState),
        executePerItem cfg items = Except.ok st →
        ∀ j, (hj : j < items.length) → ∀ s out,
          (items.get ⟨j, hj⟩).inputText = some s →
          (items.get ⟨j, hj⟩).invokeResult = Except.ok out →
          ((OutItem.routed j ∈ st.returnData.getD i [] ↔
              lookupBool out "fallback" = true)
           ∧ (OutItem.routed j ∈ st.returnData.getD cfg.categories.length [] ↔
              lookupBool out "fallback" = true))) := by
  constructor
  · apply buildSchema_length_of_fallback_name _ hnd
    rw [← hname]
    exact List.mem_map.mpr ⟨_, List.get_mem _ _ _, rfl⟩
  · intro items st h j hj s out hs ho
    obtain ⟨h1, h2⟩ := routed_mem_success cfg items st h j hj s out hs ho
    constructor
    · rw [← hname]
      exact h1 i hi
    · exact h2 hfb

theorem claim_C9_witness :
    (buildSchema [⟨"fallback", "d"⟩] FallbackPolicy.other).length = 1
    ∧ (OutItem.routed 0 ∈
        ([[OutItem.routed 0], [OutItem.routed 0]] : List (List OutItem)).getD 0 [])
    ∧ (OutItem.routed 0 ∈
        ([[OutItem.routed 0], [OutItem.routed 0]] : List (List OutItem)).getD 1 []) := by
  have happ := claim_C9 ⟨[⟨"fallback", "d"⟩], false, FallbackPolicy.other, false, false⟩
    (by decide) rfl 0 (by decide) rfl
  have hroute := happ.2 [⟨some "t", Except.ok [("fallback", true)]⟩]
    ⟨[[OutItem.routed 0], [OutItem.routed 0]], 1⟩ rfl 0 (by decide) "t"
    [("fallback", true)] rfl rfl
  exact ⟨happ.1, hroute.1.mpr (by decide), hroute.2.mpr (by decide)⟩

end TextClassifier

namespace TextClassifier

/-- Claim C4 (amended): in per-item mode with failure-tolerant mode off, the
first per-item failure aborts the whole run with no output branches: a missing
input text aborts with a `NodeOperationError` naming the index of the item,
while a classification error aborts by rethrowing the original chain error
unchanged (which carries no item index). -/
theorem claim_C4 (cfg : PerItemConfig) (hc : cfg.continueOnFail = false)
    (hne : cfg.categories ≠ []) (items : List ItemEnv) (j : Nat) (hj : j < items.length)
    (hpre : ∀ m, (hm : m < j) → envOk (items.get ⟨m, Nat.lt_trans hm hj⟩) = true)
    (hfail : envOk (items.get ⟨j, hj⟩) = false) :
    ((items.get ⟨j, hj⟩).inputText = none →
        executePerItem cfg items
          = Except.error (NodeError.operationError (missingTextMsg j)))
    ∧ (∀ s msg, (items.get ⟨j, hj⟩).inputText = some s →
        (items.get ⟨j, hj⟩).invokeResult = Except.error msg →
        executePerItem cfg items = Except.error (NodeError.chainError msg)) := by
  unfold executePerItem
  rw [if_neg (by simpa using hne)]
  have hff := execItems_first_fail cfg hc items j hj 0
    ⟨List.replicate (branchCount cfg) [], 0⟩ hpre hfail
  constructor
  · intro hnone
    have h1 := hff.1 hnone
    rwa [Nat.zero_add] at h1
  · exact hff.2

/-- Claim C4, counterexample: a classification error in intolerant mode aborts
by rethrowing the chain's own error, which does not identify the failing
index of the failing item (here the message contains no digit at all),
contradicting the
claim that any per-item failure aborts with an error identifying the index. -/
theorem claim_C4_counterexample :
    executePerItem ⟨[⟨"A", "a"⟩], false, FallbackPolicy.discard, false, false⟩
        [⟨some "t", Except.error "model failure"⟩]
      = Except.error (NodeError.chainError "model failure")
    ∧ NodeError.chainError "model failure"
        ≠ NodeError.operationError (missingTextMsg 0)
    ∧ ("model failure".toList.any Char.isDigit) = false := by
  refine ⟨rfl, by decide, by decide⟩

theorem claim_C4_witness :
    executePerItem ⟨[⟨"A", "a"⟩], false, FallbackPolicy.discard, false, false⟩
        [⟨none, Except.ok []⟩]
      = Except.error (NodeError.operationError (missingTextMsg 0)) :=
  (claim_C4 ⟨[⟨"A", "a"⟩], false, FallbackPolicy.discard, false, false⟩ rfl (by decide)
    [⟨none, Except.ok []⟩] 0 (by decide)
    (fun m hm => absurd hm (Nat.not_lt_zero m)) rfl).1 rfl

/-- Claim C6: in aggregate mode, once the categories have resolved to a
non-empty set and the input text is present, a failure of the single chain
invocation never aborts the run: the node returns exactly one branch
containing exactly one error-record item; on success it returns one branch
with one item merging the classification answer with the input text. -/
theorem claim_C6 (items : List AggItem) (cats : List Category)
    (hres : resolveAggCategories 0 items = Except.ok cats) (hne : cats ≠ [])
    (input : String) (invokeResult : Except String (List (String × Bool))) :
    (∀ msg, invokeResult = Except.error msg →
        executeAggregate items (some input) invokeResult
          = Except.ok [[AggOut.errorRecord msg]])
    ∧ (∀ out, invokeResult = Except.ok out →
        executeAggregate items (some input) invokeResult
          = Except.ok [[AggOut.result out input]]) := by
  unfold executeAggregate
  rw [hres]
  constructor
  · intro msg hinv
    rw [hinv]
    simp only [if_neg (show cats.isEmpty = true → False by simp [hne])]
  · intro out hinv
    rw [hinv]
    simp only [if_neg (show cats.isEmpty = true → False by simp [hne])]

theorem claim_C6_witness :
    executeAggregate [⟨some "A", some "descr"⟩] (some "text") (Except.error "oops")
      = Except.ok [[AggOut.errorRecord "oops"]]
    ∧ executeAggregate [⟨some "A", some "descr"⟩] (some "text")
        (Except.ok [("A", true)])
      = Except.ok [[AggOut.result [("A", true)] "text"]] := by
  constructor
  · exact (claim_C6 [⟨some "A", some "descr"⟩] [⟨"A", "descr"⟩] rfl (by decide) "text"
      (Except.error "oops")).1 "oops" rfl
  · exact (claim_C6 [⟨some "A", some "descr"⟩] [⟨"A", "descr"⟩] rfl (by decide) "text"
      (Except.ok [("A", true)])).2 [("A", true)] rfl

/-- Claim C8: in both modes, an empty resolved category set causes a fatal
configuration error raised before any item is classified: the same error is
returned for every batch and every invocation oracle, so no model call occurs
and no output branches are returned. -/
theorem claim_C8 (cfg : PerItemConfig) (items : List ItemEnv)
    (inputText : Option String) (inv : Except String (List (String × Bool)))
    (hempty : cfg.categories = []) :
    executePerItem cfg items
      = Except.error (NodeError.operationError "At least one category must be defined")
    ∧ executeAggregate [] inputText inv
      = Except.error (NodeError.operationError "At least one category must be defined") := by
  constructor
  · unfold executePerItem
    rw [if_pos (by simp [hempty])]
  · rfl

theorem claim_C8_witness :
    executePerItem ⟨[], false, FallbackPolicy.other, false, true⟩
        [⟨some "t", Except.ok [("A", true)]⟩]
      = Except.error (NodeError.operationError "At least one category must be defined")
    ∧ executeAggregate [] (some "t") (Except.ok [("A", true)])
      = Except.error (NodeError.operationError "At least one category must be defined") :=
  claim_C8 ⟨[], false, FallbackPolicy.other, false, true⟩
    [⟨some "t", Except.ok [("A", true)]⟩] (some "t") (Except.ok [("A", true)]) rfl

/-- Claim C10: in per-item mode the missing-text failure path is taken exactly
when the resolved input text is `undefined`/`null` (`none`); when the text is
any string — in particular the empty string — the item is classified normally:
a chain invocation occurs (the call counter increases by one) and the outcome
is routing from its answer (or the classification-error handling, never the
missing-text error). -/
theorem claim_C10 (cfg : PerItemConfig) (j : Nat) (env : ItemEnv) (st : LoopState) :
    (env.inputText = none →
        (cfg.continueOnFail = true →
          stepItem cfg j env st = Except.ok ⟨pushAt st.returnData 0
            (OutItem.errorRecord "Text to classify is not defined" j), st.modelCalls⟩)
        ∧ (cfg.continueOnFail = false →
          stepItem cfg j env st
            = Except.error (NodeError.operationError (missingTextMsg j))))
    ∧ (∀ s, env.inputText = some s →
        (∀ out, env.invokeResult = Except.ok out →
          stepItem cfg j env st
            = Except.ok ⟨routeItem cfg out j st.returnData, st.modelCalls + 1⟩)
        ∧ (∀ msg, env.invokeResult = Except.error msg →
            (cfg.continueOnFail = true →
              stepItem cfg j env st = Except.ok ⟨pushAt st.returnData 0
                (OutItem.errorRecord msg j), st.modelCalls + 1⟩)
            ∧ (cfg.continueOnFail = false →
              stepItem cfg j env st
                = Except.error (NodeError.chainError msg)))) := by
  constructor
  · intro hnone
    constructor
    · intro hc
      unfold stepItem
      rw [hnone, hc]
      rfl
    · intro hc
      unfold stepItem
      rw [hnone, hc]
      rfl
  · intro s hsome
    constructor
    · intro out hinv
      unfold stepItem
      rw [hsome, hinv]
    · intro msg hinv
      constructor
      · intro hc
        unfold stepItem
        rw [hsome, hinv, hc]
        rfl
      · intro hc
        unfold stepItem
        rw [hsome, hinv, hc]
        rfl

theorem claim_C10_witness :
    stepItem ⟨[⟨"A", "a"⟩], false, FallbackPolicy.discard, false, false⟩ 0
        ⟨some "", Except.ok [("A", true)]⟩ ⟨[[]], 0⟩
      = Except.ok ⟨[[OutItem.routed 0]], 1⟩ :=
  ((claim_C10 ⟨[⟨"A", "a"⟩], false, FallbackPolicy.discard, false, false⟩ 0
    ⟨some "", Except.ok [("A", true)]⟩ ⟨[[]], 0⟩).2 "" rfl).1 [("A", true)] rfl

end TextClassifier
